import Mathlib

/-
  Verification development for the rmule server.met decode / merge pipeline.

  Shallow embedding of:
  - crates/rmule/src/configuration/parsing.rs (present in the tree as
    src/configuration/parsing.rs, the direct ancestor with identical code:
    it is the file that configuration_manager.rs calls as
    parsing::parse_servers(url, bytes)): parse_servers / parse_server /
    parse_tag / read_string.
  - crates/rmule/src/configuration/server.rs: ServerPriority (TryFrom<i64>),
    ServerUdpFlags (From<u32> via from_bits_truncate), Server, ServerList,
    Server::update_from, From<&ParsedServer> for Server,
    ServerList::merge_parsed_servers.
  - crates/rmule/src/configuration/configuration_manager.rs:
    the post-processing step of download_servers (concatenate per-URL
    result lists in URL order, stable sort by ip_addr, dedup_by adjacent
    equal ips).
  - crates/rmule/src/utils.rs: split_comma_str_to_vec::<u16>.

  Modelling conventions:
  - bytes are Nat (each < 256 in any input we care about);
  - Rust String is a validated UTF-8 byte list (List Nat);
  - machine integers are Nat, assembled from bytes exactly as the
    byteorder reads do, so u32 values are < 2^32 by construction;
  - IpAddr values produced by the decoder are Ipv4Addr::from(u32) and are
    ordered exactly as the underlying u32, so an ip address is the Nat u32;
  - OffsetDateTime (times::now()) is an opaque Nat parameter `now`;
  - fallible Rust code returns Except: anyhow errors (bail! / `?`)
    become .error .fail, and unwrap_or_else(panic) becomes
    .error .panicked, so a panic is distinguished from a Result error.
-/

namespace RMule

/-- Outcome of a fallible decode step: a Rust `Err` (anyhow error, from
bail! or the `?` operator) or a Rust panic (from unwrap_or_else). -/
inductive PErr where
  | fail : PErr
  | panicked : PErr
deriving Repr, DecidableEq

/-- A Rust string modelled as its UTF-8 byte list. -/
abbrev RStr := List Nat

/-- Server priority, crates/rmule/src/configuration/server.rs. -/
inductive ServerPriority where
  | Low : ServerPriority
  | Normal : ServerPriority
  | High : ServerPriority
deriving Repr, DecidableEq

/-- impl TryFrom of i64 for ServerPriority
(crates/rmule/src/configuration/server.rs lines 443-456):
0 maps to Normal, 1 to High, 2 to Low, anything else is an error.
The TryFrom of u32 impl delegates to this one, value-preservingly. -/
def serverPriorityTryFrom (value : Nat) : Option ServerPriority :=
  match value with
  | 0 => some .Normal
  | 1 => some .High
  | 2 => some .Low
  | _ => none

/-- The bitflags vocabulary of ServerUdpFlags
(crates/rmule/src/configuration/server.rs lines 477-489). -/
def UDP_GET_SOURCES : Nat := 0b00000000001
def UDP_GET_FILES : Nat := 0b00000000010
def UDP_NEW_TAGS : Nat := 0b00000001000
def UDP_UNICODE : Nat := 0b00000010000
def UDP_GET_EXTENDED_SOURCES : Nat := 0b00000100000
def UDP_LARGE_FILES : Nat := 0b00100000000
def UDP_OBFUSCATION_UDP : Nat := 0b01000000000
def UDP_OBFUSCATION_TCP : Nat := 0b10000000000

/-- All bits that belong to the ServerUdpFlags vocabulary. -/
def udpFlagsAllBits : Nat :=
  UDP_GET_SOURCES ||| UDP_GET_FILES ||| UDP_NEW_TAGS ||| UDP_UNICODE |||
  UDP_GET_EXTENDED_SOURCES ||| UDP_LARGE_FILES ||| UDP_OBFUSCATION_UDP |||
  UDP_OBFUSCATION_TCP

/-- impl From of u32 for ServerUdpFlags
(crates/rmule/src/configuration/server.rs lines 491-496):
from_bits_truncate keeps the known bits and silently drops the rest.
The value is the flag set, represented by its bits. -/
def serverUdpFlagsFromU32 (value : Nat) : Nat :=
  value &&& udpFlagsAllBits

/-- ParsedServer, src/configuration/parsing.rs lines 13-38 (identical field
set in the crates revision used by server.rs and configuration_manager.rs). -/
structure ParsedServer where
  source : String
  ip_addr : Nat
  port : Nat
  name : Option RStr
  description : Option RStr
  user_count : Option Nat
  low_id_user_count : Option Nat
  ping : Option Nat
  country : Option RStr
  max_user_count : Option Nat
  file_count : Option Nat
  soft_file_limit : Option Nat
  hard_file_limit : Option Nat
  udp_flags : Option Nat
  version : Option RStr
  last_ping_time : Option Nat
  udp_key : Option Nat
  udp_key_ip_addr : Option Nat
  tcp_obfuscation_port : Option Nat
  udp_obfuscation_port : Option Nat
  dns : Option RStr
  priority : Option ServerPriority
  aux_ports_list : Option (List Nat)
  fail_count : Option Nat
deriving Repr, DecidableEq

/-- ParsedTag, src/configuration/parsing.rs lines 145-168. -/
inductive ParsedTag where
  | NoTag : ParsedTag
  | ServerName : RStr → ParsedTag
  | Description : RStr → ParsedTag
  | Ping : Nat → ParsedTag
  | FailCount : Nat → ParsedTag
  | Preference : Nat → ParsedTag
  | Dns : RStr → ParsedTag
  | MaxUsers : Nat → ParsedTag
  | SoftFiles : Nat → ParsedTag
  | HardFiles : Nat → ParsedTag
  | LastPingTime : Nat → ParsedTag
  | Version : RStr → ParsedTag
  | UDPFlags : Nat → ParsedTag
  | AuxPortsList : List Nat → ParsedTag
  | FileCount : Nat → ParsedTag
  | UserCount : Nat → ParsedTag
  | LowIdUserCount : Nat → ParsedTag
  | Country : RStr → ParsedTag
  | UdpKey : Nat → ParsedTag
  | UdpKeyIpAddr : Nat → ParsedTag
  | TcpObfuscationPort : Nat → ParsedTag
  | UdpObfuscationPort : Nat → ParsedTag
deriving Repr, DecidableEq

/-- Cursor read of one byte (byteorder read_u8): fails on truncation. -/
def readU8 : List Nat → Except PErr (Nat × List Nat)
  | [] => .error .fail
  | b :: rest => .ok (b, rest)

/-- Cursor read of a 2-byte little-endian integer (read_u16 LittleEndian). -/
def readU16le : List Nat → Except PErr (Nat × List Nat)
  | b0 :: b1 :: rest => .ok (b0 + 256 * b1, rest)
  | _ => .error .fail

/-- Cursor read of a 4-byte little-endian integer (read_u32 LittleEndian). -/
def readU32le : List Nat → Except PErr (Nat × List Nat)
  | b0 :: b1 :: b2 :: b3 :: rest =>
      .ok (b0 + 256 * b1 + 65536 * b2 + 16777216 * b3, rest)
  | _ => .error .fail

/-- Cursor read of a 4-byte big-endian integer (read_u32 BigEndian),
used only for the server IP address. -/
def readU32be : List Nat → Except PErr (Nat × List Nat)
  | b0 :: b1 :: b2 :: b3 :: rest =>
      .ok (16777216 * b0 + 65536 * b1 + 256 * b2 + b3, rest)
  | _ => .error .fail

/-- Is b a UTF-8 continuation byte (0x80 to 0xBF). -/
def isCont (b : Nat) : Bool := 0x80 ≤ b && b ≤ 0xBF

/-- UTF-8 validity of a byte list, the check performed by
String::from_utf8 (including the surrogate and overlong rules). -/
def validUtf8 : List Nat → Bool
  | [] => true
  | b :: rest =>
    if b ≤ 0x7F then validUtf8 rest
    else if 0xC2 ≤ b && b ≤ 0xDF then
      match rest with
      | c1 :: r => isCont c1 && validUtf8 r
      | [] => false
    else if b == 0xE0 then
      match rest with
      | c1 :: c2 :: r => (0xA0 ≤ c1 && c1 ≤ 0xBF) && isCont c2 && validUtf8 r
      | _ => false
    else if (0xE1 ≤ b && b ≤ 0xEC) || b == 0xEE || b == 0xEF then
      match rest with
      | c1 :: c2 :: r => isCont c1 && isCont c2 && validUtf8 r
      | _ => false
    else if b == 0xED then
      match rest with
      | c1 :: c2 :: r => (0x80 ≤ c1 && c1 ≤ 0x9F) && isCont c2 && validUtf8 r
      | _ => false
    else if b == 0xF0 then
      match rest with
      | c1 :: c2 :: c3 :: r =>
          (0x90 ≤ c1 && c1 ≤ 0xBF) && isCont c2 && isCont c3 && validUtf8 r
      | _ => false
    else if 0xF1 ≤ b && b ≤ 0xF3 then
      match rest with
      | c1 :: c2 :: c3 :: r => isCont c1 && isCont c2 && isCont c3 && validUtf8 r
      | _ => false
    else if b == 0xF4 then
      match rest with
      | c1 :: c2 :: c3 :: r =>
          (0x80 ≤ c1 && c1 ≤ 0x8F) && isCont c2 && isCont c3 && validUtf8 r
      | _ => false
    else false
termination_by l => l.length
decreasing_by all_goals simp_arith [List.length]

/-- Take exactly n bytes off the cursor, failing on truncation
(the read_exact step of read_string). -/
def readBytes : Nat → List Nat → Except PErr (List Nat × List Nat)
  | 0, input => .ok ([], input)
  | _ + 1, [] => .error .fail
  | n + 1, b :: rest => do
      let (bs, rest) ← readBytes n rest
      .ok (b :: bs, rest)

/-- read_string, src/configuration/parsing.rs lines 358-362: read_exact of
`length` bytes followed by the String::from_utf8 validation. -/
def read_string (length : Nat) (input : List Nat) :
    Except PErr (RStr × List Nat) := do
  let (buf, input) ← readBytes length input
  if validUtf8 buf then .ok (buf, input) else .error .fail

/-- ASCII whitespace recognised by str::trim for the byte strings at hand. -/
def isWsByte (b : Nat) : Bool :=
  b == 32 || b == 9 || b == 10 || b == 13 || b == 11 || b == 12

/-- str::trim on a byte string. -/
def trimBytes (l : List Nat) : List Nat :=
  ((l.dropWhile isWsByte).reverse.dropWhile isWsByte).reverse

/-- str::split with separator comma, on byte strings. -/
def splitComma : List Nat → List (List Nat)
  | [] => [[]]
  | 44 :: rest => [] :: splitComma rest
  | b :: rest =>
      match splitComma rest with
      | [] => [[b]]
      | seg :: segs => (b :: seg) :: segs

/-- u16::from_str on a byte string: an optional leading plus sign, then at
least one ASCII digit, and the value must fit in a u16. -/
def parseU16 (seg : List Nat) : Option Nat :=
  let digits := match seg with
    | 43 :: rest => rest
    | _ => seg
  if digits = [] then none
  else if digits.all (fun b => 48 ≤ b && b ≤ 57) then
    let v := digits.foldl (fun acc b => 10 * acc + (b - 48)) 0
    if v < 65536 then some v else none
  else none

/-- split_comma_str_to_vec::<u16> (crates/rmule/src/utils.rs lines 11-29):
split on commas, skip segments that trim to empty, parse the rest as u16,
any parse failure fails the whole conversion. -/
def splitCommaStrToVecU16 (s : RStr) : Option (List Nat) :=
  (splitComma s).foldr
    (fun seg acc =>
      if trimBytes seg = [] then acc
      else match parseU16 seg, acc with
        | some v, some rest => some (v :: rest)
        | _, _ => none)
    (some [])

/-- The recognised numeric tag names of the resolution table in parse_tag
(src/configuration/parsing.rs lines 229-321). -/
def recognizedNumericName (b : Nat) : Bool :=
  b == 0x01 || b == 0x0B || b == 0x0C || b == 0x0D || b == 0x0E ||
  b == 0x85 || b == 0x87 || b == 0x88 || b == 0x89 || b == 0x90 ||
  b == 0x91 || b == 0x92 || b == 0x93 || b == 0x94 || b == 0x95 ||
  b == 0x96 || b == 0x97 || b == 0x98

/-- The byte string "users". -/
def usersBytes : RStr := [117, 115, 101, 114, 115]
/-- The byte string "lowusers". -/
def lowusersBytes : RStr := [108, 111, 119, 117, 115, 101, 114, 115]
/-- The byte string "files". -/
def filesBytes : RStr := [102, 105, 108, 101, 115]
/-- The byte string "maxusers". -/
def maxusersBytes : RStr := [109, 97, 120, 117, 115, 101, 114, 115]
/-- The byte string "country". -/
def countryBytes : RStr := [99, 111, 117, 110, 116, 114, 121]

/-- The recognised textual tag names of the resolution table in parse_tag
(src/configuration/parsing.rs lines 322-337). -/
def recognizedTextualName (s : RStr) : Bool :=
  s == usersBytes || s == lowusersBytes || s == filesBytes ||
  s == maxusersBytes || s == countryBytes

/-- Decimal byte string of a natural number, for the Version tag's
format of major dot minor. -/
def natDecimalBytes (n : Nat) : RStr :=
  (Nat.toDigits 10 n).map Char.toNat

/-- Resolve the decoded (name, typed value) data into a ParsedTag: the match
over numeric_tag_name / textual_tag_name at src/configuration/parsing.rs
lines 229-353. A recognised name whose expected value kind was not read
panics via unwrap_or_else; an unrecognised name resolves to NoTag. -/
def resolveTag (numName? : Option Nat) (txtName? : Option RStr)
    (stringVal? : Option RStr) (numericVal? : Option Nat) :
    Except PErr ParsedTag :=
  let strOr (mk : RStr → ParsedTag) : Except PErr ParsedTag :=
    match stringVal? with
    | some s => .ok (mk s)
    | none => .error .panicked
  let numOr (mk : Nat → ParsedTag) : Except PErr ParsedTag :=
    match numericVal? with
    | some n => .ok (mk n)
    | none => .error .panicked
  match numName? with
  | some n =>
      if n = 0x01 then strOr .ServerName
      else if n = 0x0B then strOr .Description
      else if n = 0x0C then numOr .Ping
      else if n = 0x0D then numOr .FailCount
      else if n = 0x0E then numOr .Preference
      else if n = 0x85 then strOr .Dns
      else if n = 0x87 then numOr .MaxUsers
      else if n = 0x88 then numOr .SoftFiles
      else if n = 0x89 then numOr .HardFiles
      else if n = 0x90 then numOr .LastPingTime
      else if n = 0x91 then
        match stringVal? with
        | some s => .ok (.Version s)
        | none =>
            match numericVal? with
            | some v =>
                .ok (.Version (natDecimalBytes (v / 65536) ++ [46] ++
                  natDecimalBytes (v % 65536)))
            | none => .error .panicked
      else if n = 0x92 then numOr .UDPFlags
      else if n = 0x93 then
        match stringVal? with
        | some s =>
            match splitCommaStrToVecU16 s with
            | some ports => .ok (.AuxPortsList ports)
            | none => .error .fail
        | none => .error .panicked
      else if n = 0x94 then numOr .LowIdUserCount
      else if n = 0x95 then numOr .UdpKey
      else if n = 0x96 then numOr .UdpKeyIpAddr
      else if n = 0x97 then
        match numericVal? with
        | some v => if v < 65536 then .ok (.TcpObfuscationPort v) else .error .fail
        | none => .error .panicked
      else if n = 0x98 then
        match numericVal? with
        | some v => if v < 65536 then .ok (.UdpObfuscationPort v) else .error .fail
        | none => .error .panicked
      else .ok .NoTag
  | none =>
      match txtName? with
      | some s =>
          if s = usersBytes then numOr .UserCount
          else if s = lowusersBytes then numOr .LowIdUserCount
          else if s = filesBytes then numOr .FileCount
          else if s = maxusersBytes then numOr .MaxUsers
          else if s = countryBytes then strOr .Country
          else .ok .NoTag
      | none => .ok .NoTag

/-- parse_tag, src/configuration/parsing.rs lines 175-356. Reads the type
byte (with the high-bit short numeric-name form), then the name, then the
typed value (type 2 string, type 3 little-endian u32, anything else is a
fatal invalid tag type), then resolves the name. -/
def parse_tag (input : List Nat) : Except PErr (ParsedTag × List Nat) := do
  let (tagType0, input) ← readU8 input
  let (tagType, numName?, txtName?, input) ←
    if tagType0 &&& 0x80 ≠ 0 then do
      let (nb, input) ← readU8 input
      pure (tagType0 &&& 0x7F, some nb, (none : Option RStr), input)
    else do
      let (nameLen, input) ← readU16le input
      if nameLen = 1 then do
        let (nb, input) ← readU8 input
        pure (tagType0, some nb, (none : Option RStr), input)
      else do
        let (s, input) ← read_string nameLen input
        pure (tagType0, (none : Option Nat), some s, input)
  let (stringVal?, numericVal?, input) ←
    if tagType = 2 then do
      let (strLen, input) ← readU16le input
      let (s, input) ← read_string strLen input
      pure (some s, (none : Option Nat), input)
    else if tagType = 3 then do
      let (v, input) ← readU32le input
      pure ((none : Option RStr), some v, input)
    else
      .error .fail
  let tag ← resolveTag numName? txtName? stringVal? numericVal?
  .ok (tag, input)

/-- Fold one resolved tag into the ParsedServer being built: the match in
parse_server, src/configuration/parsing.rs lines 116-139. The UDPFlags raw
value goes through the truncating ServerUdpFlags conversion (which cannot
fail) and the Preference raw value goes through ServerPriority::try_from
(which errors outside 0, 1, 2). -/
def applyTag (server : ParsedServer) (tag : ParsedTag) :
    Except PErr ParsedServer :=
  match tag with
  | .NoTag => .ok server
  | .ServerName s => .ok { server with name := some s }
  | .Description d => .ok { server with description := some d }
  | .Ping n => .ok { server with ping := some n }
  | .MaxUsers n => .ok { server with max_user_count := some n }
  | .SoftFiles n => .ok { server with soft_file_limit := some n }
  | .HardFiles n => .ok { server with hard_file_limit := some n }
  | .Version s => .ok { server with version := some s }
  | .FileCount n => .ok { server with file_count := some n }
  | .UserCount n => .ok { server with user_count := some n }
  | .LowIdUserCount n => .ok { server with low_id_user_count := some n }
  | .Country s => .ok { server with country := some s }
  | .UDPFlags n =>
      .ok { server with udp_flags := some (serverUdpFlagsFromU32 n) }
  | .LastPingTime n => .ok { server with last_ping_time := some n }
  | .UdpKey n => .ok { server with udp_key := some n }
  | .UdpKeyIpAddr n => .ok { server with udp_key_ip_addr := some n }
  | .TcpObfuscationPort n => .ok { server with tcp_obfuscation_port := some n }
  | .UdpObfuscationPort n => .ok { server with udp_obfuscation_port := some n }
  | .Preference n =>
      match serverPriorityTryFrom n with
      | some p => .ok { server with priority := some p }
      | none => .error .fail
  | .Dns s => .ok { server with dns := some s }
  | .AuxPortsList ports => .ok { server with aux_ports_list := some ports }
  | .FailCount n => .ok { server with fail_count := some n }

/-- The freshly initialised ParsedServer of parse_server
(src/configuration/parsing.rs lines 86-111): mandatory ip and port,
every optional field None. -/
def initParsedServer (url : String) (ip port : Nat) : ParsedServer :=
  { source := url, ip_addr := ip, port := port,
    name := none, description := none, user_count := none,
    low_id_user_count := none, ping := none, country := none,
    max_user_count := none, file_count := none, soft_file_limit := none,
    hard_file_limit := none, udp_flags := none, version := none,
    last_ping_time := none, udp_key := none, udp_key_ip_addr := none,
    tcp_obfuscation_port := none, udp_obfuscation_port := none,
    dns := none, priority := none, aux_ports_list := none,
    fail_count := none }

/-- The tag loop of parse_server: decode tagCount tags and fold each into
the record; the first failure aborts. -/
def parseTags (server : ParsedServer) :
    Nat → List Nat → Except PErr (ParsedServer × List Nat)
  | 0, input => .ok (server, input)
  | n + 1, input => do
      let (tag, input) ← parse_tag input
      match applyTag server tag with
      | .ok server => parseTags server n input
      | .error e => .error e

/-- parse_server, src/configuration/parsing.rs lines 69-143: 4-byte
big-endian IP, 2-byte little-endian port, 4-byte little-endian tag count,
then that many tags. -/
def parse_server (url : String) (input : List Nat) :
    Except PErr (ParsedServer × List Nat) := do
  let (ip, input) ← readU32be input
  let (port, input) ← readU16le input
  let (tagCount, input) ← readU32le input
  parseTags (initParsedServer url ip port) tagCount input

/-- The record loop of parse_servers: decode exactly n server records. -/
def parseServersLoop (url : String) :
    Nat → List Nat → Except PErr (List ParsedServer × List Nat)
  | 0, input => .ok ([], input)
  | n + 1, input => do
      let (s, input) ← parse_server url input
      let (rest, input) ← parseServersLoop url n input
      .ok (s :: rest, input)

/-- parse_servers, src/configuration/parsing.rs lines 40-67: one header
byte which must be 0x0E or 0xE0, a 4-byte little-endian server count, an
early empty-list return when the count is 0, then count records. -/
def parse_servers (url : String) (input : List Nat) :
    Except PErr (List ParsedServer) := do
  let (headerByte, input) ← readU8 input
  if headerByte = 0x0E ∨ headerByte = 0xE0 then do
    let (serverCount, input) ← readU32le input
    if serverCount = 0 then .ok []
    else do
      let (servers, _) ← parseServersLoop url serverCount input
      .ok servers
  else .error .fail

/-- Server, crates/rmule/src/configuration/server.rs lines 22-82.
created and updated are OffsetDateTime values modelled as opaque Nats;
id is the database id; aux_ports_list is a plain list (not optional). -/
structure Server where
  created : Nat
  updated : Nat
  id : Nat
  source : String
  active : Bool
  ip_addr : Nat
  port : Nat
  name : Option RStr
  description : Option RStr
  user_count : Option Nat
  low_id_user_count : Option Nat
  max_user_count : Option Nat
  ping_ms : Option Nat
  file_count : Option Nat
  soft_file_limit : Option Nat
  hard_file_limit : Option Nat
  udp_flags : Option Nat
  version : Option RStr
  last_ping_time : Option Nat
  udp_key : Option Nat
  udp_key_ip_addr : Option Nat
  tcp_obfuscation_port : Option Nat
  udp_obfuscation_port : Option Nat
  dns_name : Option RStr
  priority : Option ServerPriority
  aux_ports_list : List Nat
  fail_count : Option Nat
deriving Repr, DecidableEq

/-- impl Default for Server (crates/rmule/src/configuration/server.rs lines
320-354): created and updated are times::now(), passed here as `now`;
everything else is the type's default. -/
def Server.defaultServer (now : Nat) : Server :=
  { created := now, updated := now, id := 0, source := "", active := false,
    ip_addr := 0, port := 0, name := none, description := none,
    user_count := none, low_id_user_count := none, max_user_count := none,
    ping_ms := none, file_count := none, soft_file_limit := none,
    hard_file_limit := none, udp_flags := none, version := none,
    last_ping_time := none, udp_key := none, udp_key_ip_addr := none,
    tcp_obfuscation_port := none, udp_obfuscation_port := none,
    dns_name := none, priority := none, aux_ports_list := [],
    fail_count := none }

/-- Server::update_from, crates/rmule/src/configuration/server.rs lines
357-380. Overwrites source, port and every optional field from the
candidate EXCEPT last_ping_time, whose assignment is commented out in the
source; created, updated, id, active, ip_addr and last_ping_time are left
unchanged. aux_ports_list takes the candidate's list, or empty when the
candidate has none (unwrap_or_default). -/
def Server.update_from (s : Server) (ps : ParsedServer) : Server :=
  { s with
    source := ps.source,
    port := ps.port,
    name := ps.name,
    description := ps.description,
    user_count := ps.user_count,
    low_id_user_count := ps.low_id_user_count,
    max_user_count := ps.max_user_count,
    ping_ms := ps.ping,
    file_count := ps.file_count,
    soft_file_limit := ps.soft_file_limit,
    hard_file_limit := ps.hard_file_limit,
    udp_flags := ps.udp_flags,
    version := ps.version,
    udp_key := ps.udp_key,
    udp_key_ip_addr := ps.udp_key_ip_addr,
    tcp_obfuscation_port := ps.tcp_obfuscation_port,
    udp_obfuscation_port := ps.udp_obfuscation_port,
    dns_name := ps.dns,
    priority := ps.priority,
    aux_ports_list := ps.aux_ports_list.getD [],
    fail_count := ps.fail_count }

/-- impl From of ParsedServer for Server (crates/rmule/src/configuration/
server.rs lines 309-318): default, update_from, then id 0, active true and
the candidate's ip address. -/
def Server.fromParsed (now : Nat) (ps : ParsedServer) : Server :=
  { (Server.defaultServer now).update_from ps with
    id := 0, active := true, ip_addr := ps.ip_addr }

/-- Overwrite the first server in the list whose ip matches the candidate
(the position / get_mut / update_from branch of merge_parsed_servers). -/
def updateFirstMatching (ps : ParsedServer) : List Server → List Server
  | [] => []
  | s :: rest =>
      if s.ip_addr = ps.ip_addr then s.update_from ps :: rest
      else s :: updateFirstMatching ps rest

/-- One step of the merge loop of ServerList::merge_parsed_servers
(crates/rmule/src/configuration/server.rs lines 102-118): if some existing
server has the candidate's ip, update it in place, else push a new Server
built from the candidate. -/
def mergeOne (now : Nat) (servers : List Server) (ps : ParsedServer) :
    List Server :=
  if servers.any (fun s => s.ip_addr = ps.ip_addr) then
    updateFirstMatching ps servers
  else
    servers ++ [Server.fromParsed now ps]

/-- ServerList::merge_parsed_servers, crates/rmule/src/configuration/
server.rs lines 102-118: fold the candidate batch over the server list. -/
def merge_parsed_servers (now : Nat) (servers : List Server)
    (batch : List ParsedServer) : List Server :=
  batch.foldl (mergeOne now) servers

/-- The ip addresses of a server list, in order. -/
def ips (servers : List Server) : List Nat := servers.map Server.ip_addr

/-- Stable insertion of a ParsedServer into a list sorted by ip_addr:
the element goes before the first entry whose ip is not smaller, so
entries with equal ips keep their original relative order. -/
def sInsert (x : ParsedServer) : List ParsedServer → List ParsedServer
  | [] => [x]
  | y :: ys => if y.ip_addr < x.ip_addr then y :: sInsert x ys else x :: y :: ys

/-- Stable sort by ip_addr. Vec::sort_by with the comparator
ip_addr.cmp is a stable sort under a total preorder on the key, and any
stable sort produces this same, uniquely determined output. -/
def sSort : List ParsedServer → List ParsedServer
  | [] => []
  | x :: xs => sInsert x (sSort xs)

/-- The retention loop of Vec::dedup_by with predicate equality of ip_addr:
each element is compared with the last retained element and dropped when
the ips are equal. -/
def dedupKeep (prev : ParsedServer) : List ParsedServer → List ParsedServer
  | [] => []
  | x :: xs =>
      if x.ip_addr = prev.ip_addr then dedupKeep prev xs
      else x :: dedupKeep x xs

/-- Vec::dedup_by with predicate equality of ip_addr: keeps the first
element of every run of adjacent entries with equal ips. -/
def dedupAdj : List ParsedServer → List ParsedServer
  | [] => []
  | x :: xs => x :: dedupKeep x xs

/-- The synchronous post-processing step of
ConfigurationManager::download_servers (crates/rmule/src/configuration/
configuration_manager.rs lines 356-365): join_all returns the per-URL
result lists in spawn (URL) order, they are concatenated (flatten), sorted
stably by ip address (sort_by the ip_addr comparator) and adjacent
duplicate ips are dropped (dedup_by), keeping the first of each run. -/
def downloadCandidates (perUrl : List (List ParsedServer)) :
    List ParsedServer :=
  dedupAdj (sSort perUrl.flatten)

/-! Encoders for wire bytes, used to state theorems about whole families of
inputs, and helper lemmas about the cursor reads. -/

/-- Little-endian 2-byte encoding of a u16 value. -/
def encU16le (v : Nat) : List Nat := [v % 256, v / 256]

/-- Little-endian 4-byte encoding of a u32 value. -/
def encU32le (v : Nat) : List Nat :=
  [v % 256, v / 256 % 256, v / 65536 % 256, v / 16777216]

theorem readU16le_enc (v : Nat) (rest : List Nat) :
    readU16le (encU16le v ++ rest) = .ok (v, rest) := by
  simp [encU16le, readU16le]
  omega

theorem readU32le_enc (v : Nat) (rest : List Nat) :
    readU32le (encU32le v ++ rest) = .ok (v, rest) := by
  simp [encU32le, readU32le]
  omega

theorem readBytes_exact (s rest : List Nat) :
    readBytes s.length (s ++ rest) = .ok (s, rest) := by
  induction s with
  | nil => simp [readBytes]
  | cons b bs ih => simp [readBytes, ih, Bind.bind, Except.bind]

theorem read_string_exact (s rest : List Nat) (h : validUtf8 s = true) :
    read_string s.length (s ++ rest) = .ok (s, rest) := by
  simp [read_string, readBytes_exact, Bind.bind, Except.bind, h]

/-- Decoding one tag in the high-bit short numeric-name form with a type 3
(numeric) value: the name byte and the little-endian u32 are consumed and
the name is resolved. -/
theorem parse_tag_short3 (nb v : Nat) (rest : List Nat) :
    parse_tag (0x83 :: nb :: (encU32le v ++ rest)) =
      (resolveTag (some nb) none none (some v)).map (fun t => (t, rest)) := by
  have h : (0x83 : Nat) &&& 0x80 = 128 := by decide
  have h2 : (0x83 : Nat) &&& 0x7F = 3 := by decide
  simp [parse_tag, readU8, Bind.bind, Except.bind, Pure.pure, Except.pure, h,
    h2, readU32le_enc]
  cases resolveTag (some nb) none none (some v) <;> simp [Except.map]

/-- Decoding one tag in the high-bit short numeric-name form with a type 2
(string) value. -/
theorem parse_tag_short2 (nb : Nat) (s rest : List Nat)
    (hs : validUtf8 s = true) :
    parse_tag (0x82 :: nb :: (encU16le s.length ++ s ++ rest)) =
      (resolveTag (some nb) none (some s) none).map (fun t => (t, rest)) := by
  have h : (0x82 : Nat) &&& 0x80 = 128 := by decide
  have h2 : (0x82 : Nat) &&& 0x7F = 2 := by decide
  simp [parse_tag, readU8, Bind.bind, Except.bind, Pure.pure, Except.pure, h,
    h2, readU16le_enc, read_string_exact, hs]
  cases resolveTag (some nb) none (some s) none <;> simp [Except.map]

/-- Decoding one tag in the long form with name length 1 (numeric name) and
a type 3 (numeric) value. -/
theorem parse_tag_longnum3 (nb v : Nat) (rest : List Nat) :
    parse_tag (3 :: 1 :: 0 :: nb :: (encU32le v ++ rest)) =
      (resolveTag (some nb) none none (some v)).map (fun t => (t, rest)) := by
  have h : (3 : Nat) &&& 0x80 = 0 := by decide
  simp [parse_tag, readU8, readU16le, Bind.bind, Except.bind, Pure.pure,
    Except.pure, h, readU32le_enc]
  cases resolveTag (some nb) none none (some v) <;> simp [Except.map]

/-- Decoding one tag with a textual name and a type 3 (numeric) value. -/
theorem parse_tag_txt3 (s : List Nat) (v : Nat) (rest : List Nat)
    (hs : validUtf8 s = true) (hlen : s.length ≠ 1) :
    parse_tag (3 :: (encU16le s.length ++ s ++ (encU32le v ++ rest))) =
      (resolveTag none (some s) none (some v)).map (fun t => (t, rest)) := by
  have h : (3 : Nat) &&& 0x80 = 0 := by decide
  simp [parse_tag, readU8, Bind.bind, Except.bind, Pure.pure, Except.pure, h,
    readU16le_enc, hlen, read_string_exact, hs, readU32le_enc]
  cases resolveTag none (some s) none (some v) <;> simp [Except.map]

/-- Decoding one tag with a textual name and a type 2 (string) value. -/
theorem parse_tag_txt2 (s t rest : List Nat)
    (hs : validUtf8 s = true) (hlen : s.length ≠ 1)
    (ht : validUtf8 t = true) :
    parse_tag (2 :: (encU16le s.length ++ s ++ (encU16le t.length ++ t ++ rest))) =
      (resolveTag none (some s) (some t) none).map (fun tg => (tg, rest)) := by
  have h : (2 : Nat) &&& 0x80 = 0 := by decide
  simp [parse_tag, readU8, Bind.bind, Except.bind, Pure.pure, Except.pure, h,
    readU16le_enc, hlen, read_string_exact, hs, ht]
  cases resolveTag none (some s) (some t) none <;> simp [Except.map]

/-- A numeric name outside the resolution table resolves to the no-op
sentinel NoTag, whatever value was carried. -/
theorem resolveTag_unknown_num (nb : Nat) (t : Option RStr) (sv : Option RStr)
    (nv : Option Nat) (h : recognizedNumericName nb = false) :
    resolveTag (some nb) t sv nv = .ok .NoTag := by
  simp [recognizedNumericName] at h
  simp [resolveTag, h]

/-- A textual name outside the resolution table resolves to the no-op
sentinel NoTag, whatever value was carried. -/
theorem resolveTag_unknown_txt (s : RStr) (sv : Option RStr) (nv : Option Nat)
    (h : recognizedTextualName s = false) :
    resolveTag none (some s) sv nv = .ok .NoTag := by
  simp [recognizedTextualName] at h
  simp [resolveTag, h]

/-- A successful record loop returns exactly n records. -/
theorem parseServersLoop_length (url : String) :
    ∀ (n : Nat) (input : List Nat) (l : List ParsedServer) (rest : List Nat),
      parseServersLoop url n input = .ok (l, rest) → l.length = n := by
  intro n
  induction n with
  | zero =>
      intro input l rest h
      simp [parseServersLoop] at h
      simp [h.1.symm]
  | succ n ih =>
      intro input l rest h
      simp [parseServersLoop, Bind.bind, Except.bind] at h
      cases hps : parse_server url input with
      | error e => rw [hps] at h; simp at h
      | ok p =>
          rw [hps] at h
          simp at h
          cases hloop : parseServersLoop url n p.2 with
          | error e => rw [hloop] at h; simp at h
          | ok q =>
              rw [hloop] at h
              simp at h
              have := ih p.2 q.1 q.2 hloop
              rw [h.1.symm]
              simp [this]

/-- C5: parse_servers never returns partial results: a successful parse of
an input whose count field holds N returns exactly N records (the Except
result type itself rules out records alongside an error), and a valid
header with count 0 yields the empty list, not an error. -/
theorem c5_parse_servers_all_or_nothing :
    (∀ (url : String) (b c0 c1 c2 c3 : Nat) (rest : List Nat)
        (l : List ParsedServer),
        parse_servers url (b :: c0 :: c1 :: c2 :: c3 :: rest) = .ok l →
        l.length = c0 + 256 * c1 + 65536 * c2 + 16777216 * c3) ∧
    (∀ (url : String) (b : Nat) (rest : List Nat), b = 0x0E ∨ b = 0xE0 →
        parse_servers url (b :: 0 :: 0 :: 0 :: 0 :: rest) = .ok []) := by
  constructor
  · intro url b c0 c1 c2 c3 rest l h
    simp [parse_servers, readU8, readU32le, Bind.bind, Except.bind] at h
    by_cases hb : b = 14 ∨ b = 224
    · rw [if_pos hb] at h
      by_cases hc : ((c0 = 0 ∧ c1 = 0) ∧ c2 = 0) ∧ c3 = 0
      · rw [if_pos hc] at h
        injection h with h
        subst h
        simp
        omega
      · rw [if_neg hc] at h
        cases hloop : parseServersLoop url
            (c0 + 256 * c1 + 65536 * c2 + 16777216 * c3) rest with
        | error e => rw [hloop] at h; simp at h
        | ok q =>
            rw [hloop] at h
            simp at h
            rw [h.symm]
            exact parseServersLoop_length url _ rest q.1 q.2 hloop
    · rw [if_neg hb] at h
      simp at h
  · intro url b rest hb
    rcases hb with hb | hb <;> subst hb <;> rfl

/-- Witness for C5 at a concrete input: header 0x0E with count 0 decodes
to the empty list. -/
theorem c5_witness :
    ((14 : Nat) = 0x0E ∨ (14 : Nat) = 0xE0) ∧
      parse_servers "url" [14, 0, 0, 0, 0] = .ok [] :=
  ⟨Or.inl rfl, c5_parse_servers_all_or_nothing.2 "url" 14 [] (Or.inl rfl)⟩

/-- C9: an input whose first byte is neither 0x0E nor 0xE0 fails with an
ordinary error (.fail, a bail), never a panic, and returns no servers. -/
theorem c9_invalid_header_fails (url : String) (b : Nat) (rest : List Nat)
    (h1 : b ≠ 0x0E) (h2 : b ≠ 0xE0) :
    parse_servers url (b :: rest) = .error .fail := by
  simp [parse_servers, readU8, Bind.bind, Except.bind, h1, h2]

/-- Witness for C9 at header byte 5. -/
theorem c9_witness :
    ((5 : Nat) ≠ 0x0E) ∧ ((5 : Nat) ≠ 0xE0) ∧
      parse_servers "url" [5, 0, 0, 0, 0] = .error .fail :=
  ⟨by decide, by decide,
    c9_invalid_header_fails "url" 5 [0, 0, 0, 0] (by decide) (by decide)⟩

/-- C10: a structurally well-formed input on which the decoder panics
instead of returning an error: a single record whose only tag carries the
recognised numeric name 0x01 (ServerName, a string tag) with numeric type
3, so the string value is absent and unwrap_or_else panics. -/
theorem c10_type_mismatch_panics :
    parse_servers "url"
      ([0x0E, 1, 0, 0, 0] ++ [1, 2, 3, 4] ++ [0, 0] ++ [1, 0, 0, 0] ++
        [0x83, 0x01, 0, 0, 0, 0]) = .error .panicked := by
  rfl

/-- C2: the Priority (Preference, numeric id 0x0E) wire mapping is 0 to
Normal, 1 to High, 2 to Low, and every other raw value is rejected with an
error; and decoding a server record whose Preference tag carries raw v
applies exactly this conversion to the ParsedServer priority field. -/
theorem c2_priority_wire_mapping :
    (serverPriorityTryFrom 0 = some .Normal ∧
     serverPriorityTryFrom 1 = some .High ∧
     serverPriorityTryFrom 2 = some .Low ∧
     ∀ v : Nat, 3 ≤ v → serverPriorityTryFrom v = none) ∧
    (∀ (url : String) (v : Nat) (rest : List Nat), v < 4294967296 →
        parse_server url
          ([1, 2, 3, 4, 0, 0, 1, 0, 0, 0] ++
            0x83 :: 0x0E :: (encU32le v ++ rest)) =
          match serverPriorityTryFrom v with
          | some p =>
              .ok ({ initParsedServer url 16909060 0 with
                      priority := some p }, rest)
          | none => .error .fail) := by
  refine ⟨⟨rfl, rfl, rfl, ?_⟩, ?_⟩
  · intro v hv
    match v, hv with
    | n + 3, _ => rfl
  · intro url v rest hv
    simp [parse_server, readU32be, readU16le, readU32le, Bind.bind,
      Except.bind, parseTags, parse_tag_short3, resolveTag, Except.map]
    cases hp : serverPriorityTryFrom v with
    | none => simp [applyTag, hp]
    | some p => simp [applyTag, hp, parseTags]

/-- Witness for C2: raw 5 is rejected, raw 0 decodes to priority Normal. -/
theorem c2_witness :
    ((3 ≤ 5) ∧ serverPriorityTryFrom 5 = none) ∧
    ((0 : Nat) < 4294967296 ∧
      parse_server "url"
        ([1, 2, 3, 4, 0, 0, 1, 0, 0, 0] ++
          0x83 :: 0x0E :: (encU32le 0 ++ [])) =
        match serverPriorityTryFrom 0 with
        | some p =>
            .ok ({ initParsedServer "url" 16909060 0 with
                    priority := some p }, [])
        | none => .error .fail) :=
  ⟨⟨by decide, c2_priority_wire_mapping.1.2.2.2 5 (by decide)⟩,
   ⟨by decide, c2_priority_wire_mapping.2 "url" 0 [] (by decide)⟩⟩

/-- C3: the UdpFlags tag (numeric id 0x92) conversion is truncating: bit i
of the flag set is bit i of the raw value masked by the fixed vocabulary,
and decoding a record whose UdpFlags tag carries ANY raw u32 value always
succeeds, recording the truncated flag set, never an error. -/
theorem c3_udp_flags_truncating :
    (∀ v i : Nat, (serverUdpFlagsFromU32 v).testBit i =
        (v.testBit i && udpFlagsAllBits.testBit i)) ∧
    (∀ (url : String) (v : Nat) (rest : List Nat), v < 4294967296 →
        parse_server url
          ([1, 2, 3, 4, 0, 0, 1, 0, 0, 0] ++
            0x83 :: 0x92 :: (encU32le v ++ rest)) =
          .ok ({ initParsedServer url 16909060 0 with
                  udp_flags := some (serverUdpFlagsFromU32 v) }, rest)) := by
  constructor
  · intro v i
    simp [serverUdpFlagsFromU32, Nat.testBit_land]
  · intro url v rest hv
    simp [parse_server, readU32be, readU16le, readU32le, Bind.bind,
      Except.bind, parseTags, parse_tag_short3, resolveTag, Except.map,
      applyTag]

/-- Witness for C3 at the raw value 6139 of the maximal fixture: decoding
succeeds and keeps exactly the vocabulary bits, 1851. -/
theorem c3_witness :
    ((6139 : Nat) < 4294967296) ∧
    parse_server "url"
        ([1, 2, 3, 4, 0, 0, 1, 0, 0, 0] ++
          0x83 :: 0x92 :: (encU32le 6139 ++ [])) =
      .ok ({ initParsedServer "url" 16909060 0 with
              udp_flags := some (serverUdpFlagsFromU32 6139) }, []) ∧
    serverUdpFlagsFromU32 6139 = 1851 :=
  ⟨by decide, c3_udp_flags_truncating.2 "url" 6139 [] (by decide), by decide⟩

/-- C6: a tag whose name is outside the resolution table, carried with a
valid type byte (2 or 3) and a well-formed value, decodes to the no-op
sentinel NoTag with the cursor advanced past the tag, in all four name
forms (short numeric, long numeric, textual; numeric or string value); and
the tag loop of parse_server simply continues with the remaining tags,
recording nothing. -/
theorem c6_unknown_tag_ignored :
    (∀ (nb v : Nat) (rest : List Nat), recognizedNumericName nb = false →
        v < 4294967296 →
        parse_tag (0x83 :: nb :: (encU32le v ++ rest)) = .ok (.NoTag, rest)) ∧
    (∀ (nb : Nat) (s rest : List Nat), recognizedNumericName nb = false →
        validUtf8 s = true → s.length < 65536 →
        parse_tag (0x82 :: nb :: (encU16le s.length ++ s ++ rest)) =
          .ok (.NoTag, rest)) ∧
    (∀ (nb v : Nat) (rest : List Nat), recognizedNumericName nb = false →
        v < 4294967296 →
        parse_tag (3 :: 1 :: 0 :: nb :: (encU32le v ++ rest)) =
          .ok (.NoTag, rest)) ∧
    (∀ (s : List Nat) (v : Nat) (rest : List Nat),
        recognizedTextualName s = false → validUtf8 s = true →
        s.length ≠ 1 → s.length < 65536 → v < 4294967296 →
        parse_tag (3 :: (encU16le s.length ++ s ++ (encU32le v ++ rest))) =
          .ok (.NoTag, rest)) ∧
    (∀ (s t rest : List Nat), recognizedTextualName s = false →
        validUtf8 s = true → validUtf8 t = true → s.length ≠ 1 →
        s.length < 65536 → t.length < 65536 →
        parse_tag
            (2 :: (encU16le s.length ++ s ++ (encU16le t.length ++ t ++ rest))) =
          .ok (.NoTag, rest)) ∧
    (∀ (ps : ParsedServer) (n nb v : Nat) (stream : List Nat),
        recognizedNumericName nb = false →
        parseTags ps (n + 1) (0x83 :: nb :: (encU32le v ++ stream)) =
          parseTags ps n stream) := by
  refine ⟨?_, ?_, ?_, ?_, ?_, ?_⟩
  · intro nb v rest h hv
    rw [parse_tag_short3, resolveTag_unknown_num nb none none (some v) h]
    rfl
  · intro nb s rest h hs hlen
    rw [parse_tag_short2 nb s rest hs,
      resolveTag_unknown_num nb none (some s) none h]
    rfl
  · intro nb v rest h hv
    rw [parse_tag_longnum3, resolveTag_unknown_num nb none none (some v) h]
    rfl
  · intro s v rest h hs hlen hlen2 hv
    rw [parse_tag_txt3 s v rest hs hlen,
      resolveTag_unknown_txt s none (some v) h]
    rfl
  · intro s t rest h hs ht hlen hlen2 hlen3
    rw [parse_tag_txt2 s t rest hs hlen ht,
      resolveTag_unknown_txt s (some t) none h]
    rfl
  · intro ps n nb v stream h
    simp [parseTags, parse_tag_short3, resolveTag_unknown_num nb none none
      (some v) h, Bind.bind, Except.bind, Except.map, applyTag]

/-- Witness for C6: the unknown numeric tag name 0x40 with a numeric value
is skipped, and the tag loop goes on with the remaining bytes. -/
theorem c6_witness :
    (recognizedNumericName 0x40 = false ∧ (7 : Nat) < 4294967296 ∧
      parse_tag (0x83 :: 0x40 :: (encU32le 7 ++ [9])) = .ok (.NoTag, [9])) ∧
    (recognizedNumericName 0x41 = false ∧
      parseTags (initParsedServer "url" 1 2) 1
          (0x83 :: 0x41 :: (encU32le 7 ++ [])) =
        parseTags (initParsedServer "url" 1 2) 0 []) :=
  ⟨⟨by decide, by decide,
      c6_unknown_tag_ignored.1 0x40 7 [9] (by decide) (by decide)⟩,
   ⟨by decide,
      c6_unknown_tag_ignored.2.2.2.2.2 (initParsedServer "url" 1 2) 0 0x41 7 []
        (by decide)⟩⟩

end RMule
namespace RMule

theorem update_from_ip (s : Server) (ps : ParsedServer) :
    (s.update_from ps).ip_addr = s.ip_addr := rfl

theorem update_from_update_from (s : Server) (ps1 ps2 : ParsedServer) :
    (s.update_from ps1).update_from ps2 = s.update_from ps2 := rfl

theorem update_from_fromParsed (now : Nat) (ps1 ps2 : ParsedServer)
    (h : ps1.ip_addr = ps2.ip_addr) :
    (Server.fromParsed now ps1).update_from ps2 = Server.fromParsed now ps2 := by
  simp [Server.fromParsed, Server.update_from, Server.defaultServer, h]

theorem fromParsed_ip (now : Nat) (ps : ParsedServer) :
    (Server.fromParsed now ps).ip_addr = ps.ip_addr := rfl

theorem ips_updateFirstMatching (ps : ParsedServer) (ss : List Server) :
    ips (updateFirstMatching ps ss) = ips ss := by
  induction ss with
  | nil => rfl
  | cons s rest ih =>
      by_cases h : s.ip_addr = ps.ip_addr
      · simp [updateFirstMatching, h, ips, update_from_ip]
      · simp [updateFirstMatching, h, ips] at ih ⊢
        exact ih

theorem any_ip_iff (ss : List Server) (v : Nat) :
    (ss.any (fun s => s.ip_addr = v)) = true ↔ v ∈ ips ss := by
  simp [ips, List.any_eq_true, List.mem_map, decide_eq_true_eq]

theorem ips_mergeOne_present (now : Nat) (ss : List Server)
    (ps : ParsedServer) (h : ps.ip_addr ∈ ips ss) :
    mergeOne now ss ps = updateFirstMatching ps ss := by
  rw [mergeOne, if_pos ((any_ip_iff ss ps.ip_addr).mpr h)]

theorem ips_mergeOne_absent (now : Nat) (ss : List Server)
    (ps : ParsedServer) (h : ps.ip_addr ∉ ips ss) :
    mergeOne now ss ps = ss ++ [Server.fromParsed now ps] := by
  rw [mergeOne, if_neg]
  intro hc
  exact h ((any_ip_iff ss ps.ip_addr).mp hc)

theorem ips_mergeOne_cases (now : Nat) (ss : List Server) (ps : ParsedServer) :
    ips (mergeOne now ss ps) = ips ss ∨
    (ips (mergeOne now ss ps) = ips ss ++ [ps.ip_addr] ∧ ps.ip_addr ∉ ips ss) := by
  by_cases h : ps.ip_addr ∈ ips ss
  · left
    rw [ips_mergeOne_present now ss ps h, ips_updateFirstMatching]
  · right
    refine ⟨?_, h⟩
    rw [ips_mergeOne_absent now ss ps h]
    simp [ips, fromParsed_ip]

end RMule
namespace RMule

/-- candidate batch ips -/
def candIps (batch : List ParsedServer) : List Nat :=
  batch.map ParsedServer.ip_addr

theorem mem_ips_mergeOne (now : Nat) (ss : List Server) (ps : ParsedServer)
    (v : Nat) (h : v ∈ ips ss) : v ∈ ips (mergeOne now ss ps) := by
  rcases ips_mergeOne_cases now ss ps with hc | hc
  · rw [hc]; exact h
  · rw [hc.1]; exact List.mem_append_left _ h

theorem self_mem_ips_mergeOne (now : Nat) (ss : List Server)
    (ps : ParsedServer) : ps.ip_addr ∈ ips (mergeOne now ss ps) := by
  by_cases h : ps.ip_addr ∈ ips ss
  · rw [ips_mergeOne_present now ss ps h, ips_updateFirstMatching]
    exact h
  · rw [ips_mergeOne_absent now ss ps h]
    simp [ips, fromParsed_ip]

theorem mem_ips_merge_mono (now : Nat) (batch : List ParsedServer) :
    ∀ (ss : List Server) (v : Nat), v ∈ ips ss →
      v ∈ ips (merge_parsed_servers now ss batch) := by
  induction batch with
  | nil => intro ss v h; exact h
  | cons c rest ih =>
      intro ss v h
      rw [merge_parsed_servers, List.foldl_cons]
      exact ih (mergeOne now ss c) v (mem_ips_mergeOne now ss c v h)

theorem mem_ips_merge (now : Nat) (batch : List ParsedServer) :
    ∀ (ss : List Server) (v : Nat), v ∈ candIps batch →
      v ∈ ips (merge_parsed_servers now ss batch) := by
  induction batch with
  | nil => intro ss v h; simp [candIps] at h
  | cons c rest ih =>
      intro ss v h
      simp [candIps] at h
      rw [merge_parsed_servers, List.foldl_cons]
      rcases h with h | h
      · exact mem_ips_merge_mono now rest (mergeOne now ss c) v
          (h ▸ self_mem_ips_mergeOne now ss c)
      · exact ih (mergeOne now ss c) v (by simpa [candIps] using h)

/-- C8 body: nodup of ips is preserved and old ips stay, in order. -/
theorem merge_nodup_ext (now : Nat) (batch : List ParsedServer) :
    ∀ ss : List Server, (ips ss).Nodup →
      (ips (merge_parsed_servers now ss batch)).Nodup ∧
      ∃ ext, ips (merge_parsed_servers now ss batch) = ips ss ++ ext := by
  induction batch with
  | nil => intro ss h; exact ⟨h, [], by simp [merge_parsed_servers]⟩
  | cons c rest ih =>
      intro ss h
      rw [merge_parsed_servers, List.foldl_cons]
      rcases ips_mergeOne_cases now ss c with hc | hc
      · obtain ⟨h1, ext, h2⟩ := ih (mergeOne now ss c)
          (hc ▸ h)
        rw [merge_parsed_servers] at h2
        exact ⟨h1, ext, by rw [h2, hc]⟩
      · have hnodup : (ips (mergeOne now ss c)).Nodup := by
          rw [hc.1]
          simp [List.nodup_append, h, hc.2]
        obtain ⟨h1, ext, h2⟩ := ih (mergeOne now ss c) hnodup
        rw [merge_parsed_servers] at h2
        exact ⟨h1, [c.ip_addr] ++ ext, by rw [h2, hc.1, List.append_assoc]⟩

end RMule
namespace RMule

/-- The pure update pass: apply updateFirstMatching for each candidate. -/
def updAll (ss : List Server) (batch : List ParsedServer) : List Server :=
  batch.foldl (fun t c => updateFirstMatching c t) ss

/-- First server with the given ip address. -/
def findIp (v : Nat) (t : List Server) : Option Server :=
  t.find? (fun s => s.ip_addr == v)

theorem updAll_cons (t : List Server) (c : ParsedServer)
    (rest : List ParsedServer) :
    updAll t (c :: rest) = updAll (updateFirstMatching c t) rest := rfl

theorem merge_cons (now : Nat) (t : List Server) (c : ParsedServer)
    (rest : List ParsedServer) :
    merge_parsed_servers now t (c :: rest) =
      merge_parsed_servers now (mergeOne now t c) rest := rfl

theorem upd_cons (c : ParsedServer) (s : Server) (rest : List Server) :
    updateFirstMatching c (s :: rest) =
      if s.ip_addr = c.ip_addr then s.update_from c :: rest
      else s :: updateFirstMatching c rest := rfl

theorem upd_comm (c c2 : ParsedServer) (h : c.ip_addr ≠ c2.ip_addr) :
    ∀ t : List Server,
      updateFirstMatching c (updateFirstMatching c2 t) =
        updateFirstMatching c2 (updateFirstMatching c t) := by
  intro t
  induction t with
  | nil => rfl
  | cons s rest ih =>
      by_cases h2 : s.ip_addr = c2.ip_addr
      · simp [upd_cons, h2, update_from_ip, Ne.symm h]
      · by_cases h1 : s.ip_addr = c.ip_addr
        · simp [upd_cons, h1, h2, update_from_ip, h]
        · simp [upd_cons, h1, h2, ih]

theorem upd_compose (c c2 : ParsedServer) (h : c.ip_addr = c2.ip_addr) :
    ∀ t : List Server,
      updateFirstMatching c (updateFirstMatching c2 t) =
        updateFirstMatching c t := by
  intro t
  induction t with
  | nil => rfl
  | cons s rest ih =>
      by_cases h2 : s.ip_addr = c2.ip_addr
      · simp [upd_cons, h2, h.symm, update_from_ip, update_from_update_from]
      · have h1 : ¬ s.ip_addr = c.ip_addr := by rw [h]; exact h2
        simp [upd_cons, h1, h2, ih]

theorem updAll_superseded (c : ParsedServer) :
    ∀ (batch : List ParsedServer) (t : List Server),
      c.ip_addr ∈ candIps batch →
      updAll (updateFirstMatching c t) batch = updAll t batch := by
  intro batch
  induction batch with
  | nil => intro t h; simp [candIps] at h
  | cons q rest ih =>
      intro t h
      rw [updAll_cons, updAll_cons]
      by_cases hq : q.ip_addr = c.ip_addr
      · rw [upd_compose q c hq]
      · have hmem : c.ip_addr ∈ candIps rest := by
          simp [candIps] at h ⊢
          rcases h with h | h
          · exact absurd h.symm hq
          · exact h
        rw [← upd_comm c q (fun he => hq he.symm)]
        exact ih (updateFirstMatching q t) hmem

theorem updAll_fresh (c : ParsedServer) :
    ∀ (batch : List ParsedServer) (t : List Server),
      c.ip_addr ∉ candIps batch →
      updAll (updateFirstMatching c t) batch =
        updateFirstMatching c (updAll t batch) := by
  intro batch
  induction batch with
  | nil => intro t h; rfl
  | cons q rest ih =>
      intro t h
      simp [candIps] at h
      rw [updAll_cons, updAll_cons]
      rw [← upd_comm c q (fun he => h.1 he)]
      exact ih (updateFirstMatching q t) (by simp [candIps]; exact h.2)

theorem find_upd_ne (c : ParsedServer) (v : Nat) (h : v ≠ c.ip_addr) :
    ∀ t : List Server, findIp v (updateFirstMatching c t) = findIp v t := by
  intro t
  have hb : (c.ip_addr == v) = false := by
    simp
    exact fun he => h he.symm
  induction t with
  | nil => rfl
  | cons s rest ih =>
      by_cases hs : s.ip_addr = c.ip_addr
      · simp [upd_cons, hs, findIp, update_from_ip, hb]
      · by_cases hv : s.ip_addr = v
        · simp [upd_cons, hs, findIp, hv, h]
        · simp [upd_cons, hs, findIp, hv] at ih ⊢
          exact ih

theorem find_upd_self (c : ParsedServer) :
    ∀ t : List Server,
      findIp c.ip_addr (updateFirstMatching c t) =
        (findIp c.ip_addr t).map (fun e => e.update_from c) := by
  intro t
  induction t with
  | nil => rfl
  | cons s rest ih =>
      by_cases hs : s.ip_addr = c.ip_addr
      · simp [upd_cons, hs, findIp, update_from_ip]
      · simp [upd_cons, hs, findIp] at ih ⊢
        exact ih

theorem findIp_eq_none (v : Nat) (t : List Server) (h : v ∉ ips t) :
    findIp v t = none := by
  rw [findIp, List.find?_eq_none]
  intro s hs
  simp [ips, List.mem_map] at h
  simp [h s hs]

theorem findIp_isSome (v : Nat) (t : List Server) (h : v ∈ ips t) :
    ∃ e, findIp v t = some e := by
  simp [ips, List.mem_map] at h
  obtain ⟨s, hs, he⟩ := h
  have hsome : (findIp v t).isSome := by
    rw [findIp, List.find?_isSome]
    exact ⟨s, hs, by simp [he]⟩
  cases hfind : findIp v t with
  | none => rw [hfind] at hsome; simp at hsome
  | some e => exact ⟨e, rfl⟩

theorem find_mergeOne_self (now : Nat) (t : List Server) (c : ParsedServer)
    (e : Server) (he : findIp c.ip_addr (mergeOne now t c) = some e) :
    e.update_from c = e := by
  by_cases h : c.ip_addr ∈ ips t
  · rw [ips_mergeOne_present now t c h, find_upd_self] at he
    obtain ⟨e0, he0⟩ := findIp_isSome c.ip_addr t h
    rw [he0] at he
    simp at he
    rw [← he, update_from_update_from]
  · rw [ips_mergeOne_absent now t c h, findIp, List.find?_append] at he
    rw [show (t.find? (fun s => s.ip_addr == c.ip_addr)) = none from
      findIp_eq_none c.ip_addr t h] at he
    simp [fromParsed_ip] at he
    rw [← he, update_from_fromParsed now c c rfl]

theorem find_merge_untouched (now : Nat) :
    ∀ (batch : List ParsedServer) (t : List Server) (v : Nat),
      v ∉ candIps batch →
      findIp v (merge_parsed_servers now t batch) = findIp v t := by
  intro batch
  induction batch with
  | nil => intro t v h; rfl
  | cons q rest ih =>
      intro t v h
      simp [candIps] at h
      rw [merge_cons]
      have step : findIp v (mergeOne now t q) = findIp v t := by
        by_cases hq : q.ip_addr ∈ ips t
        · rw [ips_mergeOne_present now t q hq]
          exact find_upd_ne q v (fun he => h.1 he) t
        · rw [ips_mergeOne_absent now t q hq, findIp, List.find?_append]
          have hnone : [Server.fromParsed now q].find?
              (fun s => s.ip_addr == v) = none := by
            simp [fromParsed_ip]
            exact fun he => h.1 he.symm
          rw [hnone, Option.or_none]
          rfl
      rw [← step]
      exact ih (mergeOne now t q) v (by simp [candIps]; exact h.2)

theorem upd_of_find (c : ParsedServer) :
    ∀ t : List Server,
      (∀ e, findIp c.ip_addr t = some e → e.update_from c = e) →
      updateFirstMatching c t = t := by
  intro t
  induction t with
  | nil => intro h; rfl
  | cons s rest ih =>
      intro h
      by_cases hs : s.ip_addr = c.ip_addr
      · have hid : s.update_from c = s :=
          h s (by simp [findIp, hs])
        simp [upd_cons, hs, hid]
      · have hrest : ∀ e, findIp c.ip_addr rest = some e →
            e.update_from c = e := by
          intro e he
          exact h e (by simp [findIp, hs] at he ⊢; exact he)
        simp [upd_cons, hs, ih hrest]

theorem updAll_merge_fix (now : Nat) :
    ∀ (batch : List ParsedServer) (t : List Server),
      updAll (merge_parsed_servers now t batch) batch =
        merge_parsed_servers now t batch := by
  intro batch
  induction batch with
  | nil => intro t; rfl
  | cons c rest ih =>
      intro t
      rw [merge_cons, updAll_cons]
      by_cases hc : c.ip_addr ∈ candIps rest
      · rw [updAll_superseded c rest _ hc]
        exact ih (mergeOne now t c)
      · rw [updAll_fresh c rest _ hc, ih (mergeOne now t c)]
        apply upd_of_find
        intro e he
        rw [find_merge_untouched now rest (mergeOne now t c) c.ip_addr hc] at he
        exact find_mergeOne_self now t c e he

theorem merge_all_present (now : Nat) :
    ∀ (batch : List ParsedServer) (t : List Server),
      (∀ v, v ∈ candIps batch → v ∈ ips t) →
      merge_parsed_servers now t batch = updAll t batch := by
  intro batch
  induction batch with
  | nil => intro t h; rfl
  | cons c rest ih =>
      intro t h
      rw [merge_cons, updAll_cons]
      have hc : c.ip_addr ∈ ips t := h c.ip_addr (by simp [candIps])
      rw [ips_mergeOne_present now t c hc]
      exact ih (updateFirstMatching c t) (fun v hv => by
        rw [ips_updateFirstMatching]
        exact h v (by simp [candIps] at hv ⊢; exact Or.inr hv))

/-- C7: merging the same candidate batch twice gives the same final list as
merging it once. -/
theorem c7_merge_idempotent (now1 now2 : Nat) (ss : List Server)
    (batch : List ParsedServer) :
    merge_parsed_servers now2 (merge_parsed_servers now1 ss batch) batch =
      merge_parsed_servers now1 ss batch := by
  rw [merge_all_present now2 batch (merge_parsed_servers now1 ss batch)
    (fun v hv => mem_ips_merge now1 batch ss v hv)]
  exact updAll_merge_fix now1 batch ss

end RMule
namespace RMule

/-- C8: merge preserves the one-server-per-ip invariant and removes
nothing. -/
theorem c8_merge_preserves_ip_uniqueness (now : Nat) (ss : List Server)
    (batch : List ParsedServer) (h : (ips ss).Nodup) :
    (ips (merge_parsed_servers now ss batch)).Nodup ∧
    ∃ ext, ips (merge_parsed_servers now ss batch) = ips ss ++ ext :=
  merge_nodup_ext now batch ss h

theorem c8_witness :
    (ips [{ Server.defaultServer 0 with ip_addr := 1 }]).Nodup ∧
    ((ips (merge_parsed_servers 0 [{ Server.defaultServer 0 with ip_addr := 1 }]
        [initParsedServer "url" 2 4, initParsedServer "url" 2 5])).Nodup ∧
      ∃ ext, ips (merge_parsed_servers 0
          [{ Server.defaultServer 0 with ip_addr := 1 }]
          [initParsedServer "url" 2 4, initParsedServer "url" 2 5]) =
        ips [{ Server.defaultServer 0 with ip_addr := 1 }] ++ ext) :=
  ⟨by decide,
    c8_merge_preserves_ip_uniqueness 0
      [{ Server.defaultServer 0 with ip_addr := 1 }]
      [initParsedServer "url" 2 4, initParsedServer "url" 2 5] (by decide)⟩

/-- C1 counterexample. -/
theorem c1_counterexample_last_ping_time_kept :
    (merge_parsed_servers 0
        [{ Server.defaultServer 0 with ip_addr := 7, last_ping_time := some 5 }]
        [initParsedServer "url" 7 0]).map Server.last_ping_time = [some 5] ∧
    (initParsedServer "url" 7 0).last_ping_time = none := by
  constructor <;> rfl

/-- C1 amended. -/
theorem c1_merge_overwrites_except_last_ping_time (now : Nat) (s : Server)
    (ps : ParsedServer) (h : s.ip_addr = ps.ip_addr) :
    merge_parsed_servers now [s] [ps] = [s.update_from ps] ∧
    (s.update_from ps).last_ping_time = s.last_ping_time ∧
    (s.update_from ps).ip_addr = s.ip_addr ∧
    (s.update_from ps).created = s.created ∧
    (s.update_from ps).updated = s.updated ∧
    (s.update_from ps).id = s.id ∧
    (s.update_from ps).active = s.active ∧
    (s.update_from ps).source = ps.source ∧
    (s.update_from ps).port = ps.port ∧
    (s.update_from ps).name = ps.name ∧
    (s.update_from ps).description = ps.description ∧
    (s.update_from ps).user_count = ps.user_count ∧
    (s.update_from ps).low_id_user_count = ps.low_id_user_count ∧
    (s.update_from ps).max_user_count = ps.max_user_count ∧
    (s.update_from ps).ping_ms = ps.ping ∧
    (s.update_from ps).file_count = ps.file_count ∧
    (s.update_from ps).soft_file_limit = ps.soft_file_limit ∧
    (s.update_from ps).hard_file_limit = ps.hard_file_limit ∧
    (s.update_from ps).udp_flags = ps.udp_flags ∧
    (s.update_from ps).version = ps.version ∧
    (s.update_from ps).udp_key = ps.udp_key ∧
    (s.update_from ps).udp_key_ip_addr = ps.udp_key_ip_addr ∧
    (s.update_from ps).tcp_obfuscation_port = ps.tcp_obfuscation_port ∧
    (s.update_from ps).udp_obfuscation_port = ps.udp_obfuscation_port ∧
    (s.update_from ps).dns_name = ps.dns ∧
    (s.update_from ps).priority = ps.priority ∧
    (s.update_from ps).aux_ports_list = ps.aux_ports_list.getD [] ∧
    (s.update_from ps).fail_count = ps.fail_count := by
  refine ⟨?_, rfl, rfl, rfl, rfl, rfl, rfl, rfl, rfl, rfl, rfl, rfl, rfl,
    rfl, rfl, rfl, rfl, rfl, rfl, rfl, rfl, rfl, rfl, rfl, rfl, rfl, rfl, rfl⟩
  simp [merge_parsed_servers, mergeOne, updateFirstMatching, h]

theorem c1_witness :
    ({ Server.defaultServer 0 with ip_addr := 7 } : Server).ip_addr =
      (initParsedServer "url" 7 0).ip_addr ∧
    merge_parsed_servers 3 [{ Server.defaultServer 0 with ip_addr := 7 }]
        [initParsedServer "url" 7 0] =
      [({ Server.defaultServer 0 with ip_addr := 7 } : Server).update_from
        (initParsedServer "url" 7 0)] :=
  ⟨rfl, (c1_merge_overwrites_except_last_ping_time 3
      { Server.defaultServer 0 with ip_addr := 7 }
      (initParsedServer "url" 7 0) rfl).1⟩

end RMule
namespace RMule

theorem mem_sInsert (x a : ParsedServer) :
    ∀ l : List ParsedServer, a ∈ sInsert x l ↔ a = x ∨ a ∈ l := by
  intro l
  induction l with
  | nil => simp [sInsert]
  | cons y ys ih =>
      by_cases h : y.ip_addr < x.ip_addr
      · simp [sInsert, h, ih]
        try tauto
      · simp [sInsert, h]
        try tauto

theorem sorted_sInsert (x : ParsedServer) :
    ∀ l : List ParsedServer,
      l.Pairwise (fun a b => a.ip_addr ≤ b.ip_addr) →
      (sInsert x l).Pairwise (fun a b => a.ip_addr ≤ b.ip_addr) := by
  intro l
  induction l with
  | nil => intro h; simp [sInsert]
  | cons y ys ih =>
      intro h
      rw [List.pairwise_cons] at h
      by_cases hc : y.ip_addr < x.ip_addr
      · rw [sInsert, if_pos hc, List.pairwise_cons]
        refine ⟨?_, ih h.2⟩
        intro a ha
        rw [mem_sInsert] at ha
        rcases ha with ha | ha
        · rw [ha]; exact Nat.le_of_lt hc
        · exact h.1 a ha
      · rw [sInsert, if_neg hc, List.pairwise_cons]
        refine ⟨?_, List.pairwise_cons.mpr h⟩
        intro a ha
        simp at ha
        rcases ha with ha | ha
        · rw [ha]; exact Nat.le_of_not_lt hc
        · exact Nat.le_trans (Nat.le_of_not_lt hc) (h.1 a ha)

theorem sorted_sSort :
    ∀ l : List ParsedServer,
      (sSort l).Pairwise (fun a b => a.ip_addr ≤ b.ip_addr) := by
  intro l
  induction l with
  | nil => simp [sSort]
  | cons x xs ih => exact sorted_sInsert x (sSort xs) ih

theorem mem_sSort (a : ParsedServer) :
    ∀ l : List ParsedServer, a ∈ sSort l ↔ a ∈ l := by
  intro l
  induction l with
  | nil => simp [sSort]
  | cons x xs ih =>
      rw [sSort, mem_sInsert]
      simp [ih]

theorem find_sInsert_ne (x : ParsedServer) (v : Nat) (h : x.ip_addr ≠ v) :
    ∀ l : List ParsedServer,
      (sInsert x l).find? (fun p => p.ip_addr == v) =
        l.find? (fun p => p.ip_addr == v) := by
  intro l
  have hx : ¬ (x.ip_addr == v) = true := by simp [h]
  induction l with
  | nil => simp [sInsert, List.find?, hx]
  | cons y ys ih =>
      by_cases hc : y.ip_addr < x.ip_addr
      · rw [sInsert, if_pos hc]
        by_cases hy : (y.ip_addr == v) = true
        · rw [@List.find?_cons_of_pos _ (fun q => q.ip_addr == v) y (sInsert x ys) hy,
            @List.find?_cons_of_pos _ (fun q => q.ip_addr == v) y ys hy]
        · rw [@List.find?_cons_of_neg _ (fun q => q.ip_addr == v) y (sInsert x ys) hy,
            @List.find?_cons_of_neg _ (fun q => q.ip_addr == v) y ys hy]
          exact ih
      · rw [sInsert, if_neg hc, @List.find?_cons_of_neg _ (fun q => q.ip_addr == v) x (y :: ys) hx]

theorem find_sInsert_self (x : ParsedServer) (v : Nat) (h : x.ip_addr = v) :
    ∀ l : List ParsedServer,
      l.Pairwise (fun a b => a.ip_addr ≤ b.ip_addr) →
      (sInsert x l).find? (fun p => p.ip_addr == v) = some x := by
  intro l
  have hx : (x.ip_addr == v) = true := by simp [h]
  induction l with
  | nil => intro _; simp [sInsert, List.find?, hx]
  | cons y ys ih =>
      intro hs
      rw [List.pairwise_cons] at hs
      by_cases hc : y.ip_addr < x.ip_addr
      · have hy : ¬ (y.ip_addr == v) = true := by
          simp
          omega
        rw [sInsert, if_pos hc, @List.find?_cons_of_neg _ (fun q => q.ip_addr == v) y (sInsert x ys) hy]
        exact ih hs.2
      · rw [sInsert, if_neg hc, @List.find?_cons_of_pos _ (fun q => q.ip_addr == v) x (y :: ys) hx]

theorem find_sSort (v : Nat) :
    ∀ l : List ParsedServer,
      (sSort l).find? (fun p => p.ip_addr == v) =
        l.find? (fun p => p.ip_addr == v) := by
  intro l
  induction l with
  | nil => rfl
  | cons x xs ih =>
      rw [sSort]
      by_cases hx : x.ip_addr = v
      · rw [find_sInsert_self x v hx (sSort xs) (sorted_sSort xs),
          @List.find?_cons_of_pos _ (fun q => q.ip_addr == v) x xs (by simp [hx])]
      · rw [find_sInsert_ne x v hx (sSort xs), ih,
          @List.find?_cons_of_neg _ (fun q => q.ip_addr == v) x xs (by simp [hx])]

end RMule
namespace RMule

theorem mem_dedupKeep (a : ParsedServer) :
    ∀ (l : List ParsedServer) (prev : ParsedServer),
      a ∈ dedupKeep prev l → a ∈ l := by
  intro l
  induction l with
  | nil => intro prev h; simp [dedupKeep] at h
  | cons x xs ih =>
      intro prev h
      by_cases hx : x.ip_addr = prev.ip_addr
      · rw [dedupKeep, if_pos hx] at h
        exact List.mem_cons_of_mem x (ih prev h)
      · rw [dedupKeep, if_neg hx] at h
        rcases List.mem_cons.mp h with h | h
        · exact h ▸ List.mem_cons_self x xs
        · exact List.mem_cons_of_mem x (ih x h)

theorem dedupKeep_strict :
    ∀ (l : List ParsedServer) (prev : ParsedServer),
      l.Pairwise (fun a b => a.ip_addr ≤ b.ip_addr) →
      (∀ y ∈ l, prev.ip_addr ≤ y.ip_addr) →
      (prev :: dedupKeep prev l).Pairwise
        (fun a b => a.ip_addr < b.ip_addr) := by
  intro l
  induction l with
  | nil => intro prev _ _; simp [dedupKeep]
  | cons x xs ih =>
      intro prev hp hle
      rw [List.pairwise_cons] at hp
      by_cases hx : x.ip_addr = prev.ip_addr
      · rw [dedupKeep, if_pos hx]
        refine ih prev hp.2 ?_
        intro y hy
        exact Nat.le_trans (hx ▸ hle x (List.mem_cons_self x xs)) (hp.1 y hy)
      · rw [dedupKeep, if_neg hx]
        have hprevx : prev.ip_addr < x.ip_addr :=
          Nat.lt_of_le_of_ne (hle x (List.mem_cons_self x xs))
            (fun he => hx he.symm)
        have htail := ih x hp.2 hp.1
        rw [List.pairwise_cons]
        refine ⟨?_, htail⟩
        intro a ha
        rcases List.mem_cons.mp ha with ha | ha
        · rw [ha]; exact hprevx
        · exact Nat.lt_of_lt_of_le hprevx
            (hp.1 a (mem_dedupKeep a xs x ha))

theorem find_dedupKeep :
    ∀ (l : List ParsedServer) (prev : ParsedServer) (v : Nat),
      l.Pairwise (fun a b => a.ip_addr ≤ b.ip_addr) →
      (∀ y ∈ l, prev.ip_addr ≤ y.ip_addr) →
      (prev :: dedupKeep prev l).find? (fun p => p.ip_addr == v) =
        (prev :: l).find? (fun p => p.ip_addr == v) := by
  intro l
  induction l with
  | nil => intro prev v _ _; rfl
  | cons x xs ih =>
      intro prev v hp hle
      rw [List.pairwise_cons] at hp
      by_cases hprev : (prev.ip_addr == v) = true
      · rw [@List.find?_cons_of_pos _ (fun q => q.ip_addr == v) prev
          (dedupKeep prev (x :: xs)) hprev,
          @List.find?_cons_of_pos _ (fun q => q.ip_addr == v) prev
          (x :: xs) hprev]
      · by_cases hx : x.ip_addr = prev.ip_addr
        · rw [dedupKeep, if_pos hx]
          have hxv : ¬ (x.ip_addr == v) = true := by rw [hx]; exact hprev
          have := ih prev v hp.2 (fun y hy =>
            Nat.le_trans (hx ▸ hle x (List.mem_cons_self x xs)) (hp.1 y hy))
          rw [this,
            @List.find?_cons_of_neg _ (fun q => q.ip_addr == v) prev
              (x :: xs) hprev,
            @List.find?_cons_of_neg _ (fun q => q.ip_addr == v) prev
              xs hprev,
            @List.find?_cons_of_neg _ (fun q => q.ip_addr == v) x
              xs hxv]
        · rw [dedupKeep, if_neg hx]
          rw [@List.find?_cons_of_neg _ (fun q => q.ip_addr == v) prev
              (x :: dedupKeep x xs) hprev,
            @List.find?_cons_of_neg _ (fun q => q.ip_addr == v) prev
              (x :: xs) hprev]
          by_cases hxv : (x.ip_addr == v) = true
          · rw [@List.find?_cons_of_pos _ (fun q => q.ip_addr == v) x
                (dedupKeep x xs) hxv,
              @List.find?_cons_of_pos _ (fun q => q.ip_addr == v) x xs hxv]
          · rw [@List.find?_cons_of_neg _ (fun q => q.ip_addr == v) x
                (dedupKeep x xs) hxv,
              @List.find?_cons_of_neg _ (fun q => q.ip_addr == v) x xs hxv]
            have := ih x v hp.2 hp.1
            rw [@List.find?_cons_of_neg _ (fun q => q.ip_addr == v) x
                (dedupKeep x xs) hxv,
              @List.find?_cons_of_neg _ (fun q => q.ip_addr == v) x xs hxv]
              at this
            exact this

theorem mem_dedupAdj (a : ParsedServer) (l : List ParsedServer)
    (h : a ∈ dedupAdj l) : a ∈ l := by
  cases l with
  | nil => simp [dedupAdj] at h
  | cons x xs =>
      rw [dedupAdj] at h
      rcases List.mem_cons.mp h with h | h
      · exact h ▸ List.mem_cons_self x xs
      · exact List.mem_cons_of_mem x (mem_dedupKeep a xs x h)

theorem nodup_ips_dedupAdj (l : List ParsedServer)
    (h : l.Pairwise (fun a b => a.ip_addr ≤ b.ip_addr)) :
    ((dedupAdj l).map ParsedServer.ip_addr).Nodup := by
  cases l with
  | nil => simp [dedupAdj]
  | cons x xs =>
      rw [dedupAdj]
      rw [List.pairwise_cons] at h
      have hlt := dedupKeep_strict xs x h.2 h.1
      have hmap : ((x :: dedupKeep x xs).map
          ParsedServer.ip_addr).Pairwise (fun a b => a < b) :=
        List.Pairwise.map _ (fun a b hab => hab) hlt
      exact hmap.imp (fun hab => Nat.ne_of_lt hab)

end RMule
namespace RMule

theorem find_dedupAdj (v : Nat) (l : List ParsedServer)
    (h : l.Pairwise (fun a b => a.ip_addr ≤ b.ip_addr)) :
    (dedupAdj l).find? (fun p => p.ip_addr == v) =
      l.find? (fun p => p.ip_addr == v) := by
  cases l with
  | nil => rfl
  | cons x xs =>
      rw [List.pairwise_cons] at h
      rw [dedupAdj]
      exact find_dedupKeep xs x v h.2 h.1

/-- C4: correctness of the download post-processing step. -/
theorem c4_download_candidates_dedup (perUrl : List (List ParsedServer)) :
    ((downloadCandidates perUrl).map ParsedServer.ip_addr).Nodup ∧
    (∀ v : Nat, (downloadCandidates perUrl).find? (fun p => p.ip_addr == v) =
        perUrl.flatten.find? (fun p => p.ip_addr == v)) ∧
    (∀ p, p ∈ downloadCandidates perUrl → p ∈ perUrl.flatten) ∧
    (∀ p, p ∈ perUrl.flatten →
        ∃ q, q ∈ downloadCandidates perUrl ∧ q.ip_addr = p.ip_addr) := by
  refine ⟨?_, ?_, ?_, ?_⟩
  · exact nodup_ips_dedupAdj (sSort perUrl.flatten) (sorted_sSort _)
  · intro v
    rw [downloadCandidates, find_dedupAdj v _ (sorted_sSort _), find_sSort]
  · intro p hp
    rw [downloadCandidates] at hp
    exact (mem_sSort p _).mp (mem_dedupAdj p _ hp)
  · intro p hp
    have hsome : (perUrl.flatten.find?
        (fun r => r.ip_addr == p.ip_addr)).isSome := by
      rw [List.find?_isSome]
      exact ⟨p, hp, by simp⟩
    cases hq : perUrl.flatten.find? (fun r => r.ip_addr == p.ip_addr) with
    | none => rw [hq] at hsome; simp at hsome
    | some q =>
        have hfd : (downloadCandidates perUrl).find?
            (fun r => r.ip_addr == p.ip_addr) = some q := by
          rw [downloadCandidates, find_dedupAdj _ _ (sorted_sSort _),
            find_sSort, hq]
        refine ⟨q, List.mem_of_find?_eq_some hfd, ?_⟩
        have := List.find?_some hfd
        simpa using this

/-- Witness for C4 on two per-URL lists sharing ip 5 with different ports:
the survivor is the entry of the first URL. -/
theorem c4_witness :
    (((downloadCandidates [[initParsedServer "a" 5 1], [initParsedServer "b" 5 2,
        initParsedServer "b" 3 9]]).map ParsedServer.ip_addr).Nodup ∧
      (∀ v : Nat, (downloadCandidates [[initParsedServer "a" 5 1],
          [initParsedServer "b" 5 2, initParsedServer "b" 3 9]]).find?
            (fun p => p.ip_addr == v) =
          [[initParsedServer "a" 5 1], [initParsedServer "b" 5 2,
            initParsedServer "b" 3 9]].flatten.find?
            (fun p => p.ip_addr == v)) ∧
      (∀ p, p ∈ downloadCandidates [[initParsedServer "a" 5 1],
          [initParsedServer "b" 5 2, initParsedServer "b" 3 9]] →
          p ∈ [[initParsedServer "a" 5 1], [initParsedServer "b" 5 2,
            initParsedServer "b" 3 9]].flatten) ∧
      (∀ p, p ∈ [[initParsedServer "a" 5 1], [initParsedServer "b" 5 2,
          initParsedServer "b" 3 9]].flatten →
          ∃ q, q ∈ downloadCandidates [[initParsedServer "a" 5 1],
            [initParsedServer "b" 5 2, initParsedServer "b" 3 9]] ∧
            q.ip_addr = p.ip_addr)) ∧
    downloadCandidates [[initParsedServer "a" 5 1], [initParsedServer "b" 5 2,
        initParsedServer "b" 3 9]] =
      [initParsedServer "b" 3 9, initParsedServer "a" 5 1] :=
  ⟨c4_download_candidates_dedup [[initParsedServer "a" 5 1],
      [initParsedServer "b" 5 2, initParsedServer "b" 3 9]], by decide⟩

end RMule
